import Mathlib

/-!
Verification development for the rust-wallet repository (an HD Bitcoin
wallet library).  The Rust sources under `src/wallet/src/` are embedded
shallowly:

* `storage.rs` — the `DB` facade over the in-memory `State`, with its
  unimplemented `store` body modelled explicitly as an aborting call;
* `account.rs` — `Account` with its key counters, pubkey vectors and
  UTXO map;
* `keyfactory.rs` — seed derivation (`Seed::new`, real PBKDF2-HMAC-SHA512),
  master-key creation and decryption;
* `walletlibrary.rs` is absent from the sources (only its declarations in
  `interface.rs` and its callers in the tests are present); the wallet
  library operations are modelled from the specification, each such
  definition carrying a doc comment starting with `Modelled from the spec`.

BIP32 child derivation and address formatting live in the external
`bitcoin`/`secp256k1` crates, not in this repository.  They are modelled
symbolically: an extended key is identified by the network, the seed it
was created from, and its derivation path from the master; deriving a
child appends the child indices to the path, and the public counterpart
of a key carries the same identifying data.  This captures exactly which
derivation path every repository call uses, which is what the claims
about key issuance are about.
-/

namespace RustWallet

/-- Bitcoin network parameter (`bitcoin::network::constants::Network`),
restricted to the variants the repository uses. -/
inductive Network where
  | bitcoin
  | testnet
  | regtest
deriving DecidableEq, Repr

/-- `AccountAddressType` from `account.rs`: the script convention of an
account (legacy, wrapped segwit, native segwit). -/
inductive AccountAddressType where
  | P2PKH
  | P2SHWH
  | P2WKH
deriving DecidableEq, Repr

/-- `AddressChain` from `account.rs`: the external (receiving) or
internal (change) branch of an account. -/
inductive AddressChain where
  | External
  | Internal
deriving DecidableEq, Repr

/-- `impl Into<u32> for AddressChain` (account.rs): External ↦ 0,
Internal ↦ 1; used as the first child index below the account key. -/
def AddressChain.toIndex : AddressChain → Nat
  | .External => 0
  | .Internal => 1

/-- `KeyPath` from `account.rs`: a chain and a child index. -/
structure KeyPath where
  addr_chain : AddressChain
  addr_index : Nat
deriving DecidableEq, Repr

/-- `bitcoin::OutPoint`: the (txid, vout) pair identifying a UTXO.  The
32-byte transaction id is modelled as a natural number. -/
structure OutPoint where
  txid : Nat
  vout : Nat
deriving DecidableEq, Repr

/-- Symbolic model of `bitcoin::util::bip32::ExtendedPrivKey` (external
crate): a key is identified by its network, the seed bytes it was
created from, and its (normal-child) derivation path from the master. -/
structure ExtendedPrivKey where
  network : Network
  seed : List Nat
  path : List Nat
deriving DecidableEq, Repr

/-- Symbolic model of `ExtendedPrivKey::derive_priv` (external crate):
child derivation appends the child indices to the path.  The BIP32
failure case the crate can report (astronomically rare, propagated by
the repository with `?`) does not arise in the symbolic model. -/
def ExtendedPrivKey.derive_priv (k : ExtendedPrivKey) (path : List Nat) : ExtendedPrivKey :=
  { k with path := k.path ++ path }

/-- Symbolic model of `bitcoin::PublicKey`: the public counterpart of an
extended private key carries the same identifying data, so two public
keys are equal exactly when they come from the same derivation path of
the same master key. -/
structure PublicKey where
  network : Network
  seed : List Nat
  path : List Nat
deriving DecidableEq, Repr

/-- Symbolic model of `bitcoin::PrivateKey` (value of
`ExtendedPrivKey::private_key`). -/
structure PrivateKey where
  network : Network
  seed : List Nat
  path : List Nat
deriving DecidableEq, Repr

/-- `ExtendedPubKey::from_private(...).public_key` (external crate),
symbolically: forget the private part. -/
def ExtendedPrivKey.toPublicKey (k : ExtendedPrivKey) : PublicKey :=
  ⟨k.network, k.seed, k.path⟩

/-- `ExtendedPrivKey::private_key` (external crate), symbolically. -/
def ExtendedPrivKey.privateKey (k : ExtendedPrivKey) : PrivateKey :=
  ⟨k.network, k.seed, k.path⟩

/-- The public key corresponding to a private key (secp256k1,
symbolically). -/
def PrivateKey.pub (k : PrivateKey) : PublicKey :=
  ⟨k.network, k.seed, k.path⟩

/-- Symbolic model of a rendered address string: the source formats an
address from the script type, the network and the public key
(`Account::addr_from_pk`, delegating to the external `bitcoin` crate),
so the rendering is identified by those three inputs. -/
structure Addr where
  network : Network
  addr_type : AccountAddressType
  pk : PublicKey
deriving DecidableEq, Repr

/-- Symbolic model of `bitcoin::Script` produced by
`Account::script_from_pk`: identified by the same three inputs as the
address. -/
structure Script where
  network : Network
  addr_type : AccountAddressType
  pk : PublicKey
deriving DecidableEq, Repr

/-- `Utxo` from `account.rs`. -/
structure Utxo where
  value : Nat
  key_path : KeyPath
  out_point : OutPoint
  account_index : Nat
  pk_script : Script
  addr_type : AccountAddressType
deriving DecidableEq, Repr

/-- `SecretKeyHelper` from `account.rs`: the index record persisted next
to each derived public key. -/
structure SecretKeyHelper where
  addr_type : AccountAddressType
  addr_chain : AddressChain
  index : Nat
deriving DecidableEq, Repr

/-- `LockId` from `walletlibrary.rs` (module absent from the sources).
Modelled from the spec: an opaque unique identifier, generated as a
counter, unique across the process lifetime. -/
abbrev LockId := Nat

/-- `LockGroup` from `walletlibrary.rs` (module absent from the
sources).  Modelled from the spec: the set of outpoints reserved under
one `LockId`. -/
abbrev LockGroup := List OutPoint

/-- Insert into an association list with the `HashMap::insert`
semantics: replace the value when the key is present, append otherwise. -/
def assocInsert {α β : Type} [DecidableEq α] (l : List (α × β)) (k : α) (v : β) :
    List (α × β) :=
  if l.any (fun p => p.1 = k) then
    l.map (fun p => if p.1 = k then (k, v) else p)
  else
    l ++ [(k, v)]

/-- Remove a key from an association list (`HashMap::remove`). -/
def assocRemove {α β : Type} [DecidableEq α] (l : List (α × β)) (k : α) :
    List (α × β) :=
  l.filter (fun p => ¬ p.1 = k)

/-- Look a key up in an association list. -/
def assocFind {α β : Type} [DecidableEq α] (l : List (α × β)) (k : α) : Option β :=
  (l.find? (fun p => p.1 = k)).map Prod.snd

/-- `State` from `storage.rs`: the in-memory contents of the persistent
store.  Hash maps are modelled as association lists in insertion
order. -/
structure DBState where
  bip39_randomness : Option (List Nat)
  last_seen_block_height : Nat
  utxo_map : List (OutPoint × Utxo)
  external_public_key_list : List (SecretKeyHelper × PublicKey)
  internal_public_key_list : List (SecretKeyHelper × PublicKey)
  p2pkh_address_list : List Addr
  p2shwh_address_list : List Addr
  p2wkh_address_list : List Addr
  lock_group : List (LockId × LockGroup)
deriving DecidableEq, Repr

/-- `State::default()` (storage.rs): everything empty, height zero. -/
def DBState.default : DBState :=
  ⟨none, 0, [], [], [], [], [], [], []⟩

namespace DB

/-- `DB::store` (storage.rs lines 22-25): the body is
`unimplemented!()`, which panics with "not implemented".  The call is
modelled as a result value: `none` means the call panics and aborts the
surrounding operation. -/
def store (_ : DBState) : Option Unit := none

/-- `DB::put_bip39_randomness` (storage.rs): the mutation of
`self.state` happens first, then `self.store()` runs; the pair returns
the mutated state together with the outcome of the `store` call. -/
def put_bip39_randomness (s : DBState) (randomness : List Nat) :
    DBState × Option Unit :=
  let s := { s with bip39_randomness := some randomness }
  (s, store s)

/-- `DB::put_last_seen_block_height` (storage.rs). -/
def put_last_seen_block_height (s : DBState) (h : Nat) : DBState × Option Unit :=
  let s := { s with last_seen_block_height := h }
  (s, store s)

/-- `DB::put_utxo` (storage.rs): `HashMap::insert`, then `store`. -/
def put_utxo (s : DBState) (op : OutPoint) (utxo : Utxo) : DBState × Option Unit :=
  let s := { s with utxo_map := assocInsert s.utxo_map op utxo }
  (s, store s)

/-- `DB::delete_utxo` (storage.rs): `HashMap::remove`, then `store`. -/
def delete_utxo (s : DBState) (op : OutPoint) : DBState × Option Unit :=
  let s := { s with utxo_map := assocRemove s.utxo_map op }
  (s, store s)

/-- `DB::put_external_public_key` (storage.rs): push onto the external
pubkey list, then `store`. -/
def put_external_public_key (s : DBState) (kh : SecretKeyHelper) (pk : PublicKey) :
    DBState × Option Unit :=
  let s := { s with external_public_key_list := s.external_public_key_list ++ [(kh, pk)] }
  (s, store s)

/-- `DB::put_internal_public_key` (storage.rs): push onto the internal
pubkey list, then `store`. -/
def put_internal_public_key (s : DBState) (kh : SecretKeyHelper) (pk : PublicKey) :
    DBState × Option Unit :=
  let s := { s with internal_public_key_list := s.internal_public_key_list ++ [(kh, pk)] }
  (s, store s)

/-- `DB::put_address` (storage.rs): push onto the per-script address
list selected by the address type, then `store`. -/
def put_address (s : DBState) (addr_type : AccountAddressType) (address : Addr) :
    DBState × Option Unit :=
  let s :=
    match addr_type with
    | .P2PKH => { s with p2pkh_address_list := s.p2pkh_address_list ++ [address] }
    | .P2SHWH => { s with p2shwh_address_list := s.p2shwh_address_list ++ [address] }
    | .P2WKH => { s with p2wkh_address_list := s.p2wkh_address_list ++ [address] }
  (s, store s)

/-- `DB::put_lock_group` (storage.rs): `HashMap::insert`, then `store`. -/
def put_lock_group (s : DBState) (lock_id : LockId) (lg : LockGroup) :
    DBState × Option Unit :=
  let s := { s with lock_group := assocInsert s.lock_group lock_id lg }
  (s, store s)

/-- `DB::get_full_address_list` (storage.rs lines 67-73): the
concatenation `[p2pkh, p2shwh, p2wkh].concat()`. -/
def get_full_address_list (s : DBState) : List Addr :=
  [s.p2pkh_address_list, s.p2shwh_address_list, s.p2wkh_address_list].flatten

/-- `DB::get_account_address_list` (storage.rs). -/
def get_account_address_list (s : DBState) (addr_type : AccountAddressType) : List Addr :=
  match addr_type with
  | .P2PKH => s.p2pkh_address_list
  | .P2SHWH => s.p2shwh_address_list
  | .P2WKH => s.p2wkh_address_list

end DB

/-- `Account` from `account.rs`.  The shared `Arc<RwLock<DB>>` handle is
modelled by threading the `DBState` explicitly through every operation. -/
structure Account where
  account_key : ExtendedPrivKey
  address_type : AccountAddressType
  network : Network
  external_index : Nat
  internal_index : Nat
  external_pk_list : List PublicKey
  internal_pk_list : List PublicKey
  btc_address_list : List Addr
  utxo_list : List (OutPoint × Utxo)
deriving DecidableEq, Repr

namespace Account

/-- `Account::new` (account.rs): fresh counters, empty lists. -/
def new (account_key : ExtendedPrivKey) (address_type : AccountAddressType)
    (network : Network) : Account :=
  ⟨account_key, address_type, network, 0, 0, [], [], [], []⟩

/-- `Account::get_sk` (account.rs lines 205-219): re-derive the private
key at `m/(chain)/(index)` below the account key. -/
def get_sk (a : Account) (key_path : KeyPath) : PrivateKey :=
  (a.account_key.derive_priv
    [key_path.addr_chain.toIndex, key_path.addr_index]).privateKey

/-- `Account::grab_utxo` (account.rs): insert into the in-memory UTXO
map and persist via `DB::put_utxo`. -/
def grab_utxo (a : Account) (db : DBState) (utxo : Utxo) : Account × DBState :=
  let a := { a with utxo_list := assocInsert a.utxo_list utxo.out_point utxo }
  (a, (DB.put_utxo db utxo.out_point utxo).1)

/-- `Account::next_external_pk` (account.rs lines 230-256): derive the
child at `m/0/(external_index)`, push the public key, persist the
`(type, External, external_index)` record, and only then increment the
external index. -/
def next_external_pk (a : Account) (db : DBState) :
    PublicKey × Account × DBState :=
  let epk := a.account_key.derive_priv [0, a.external_index]
  let pk := epk.toPublicKey
  let a1 := { a with external_pk_list := a.external_pk_list ++ [pk] }
  let key : SecretKeyHelper := ⟨a.address_type, .External, a.external_index⟩
  let db1 := (DB.put_external_public_key db key pk).1
  let a2 := { a1 with external_index := a1.external_index + 1 }
  (pk, a2, db1)

/-- `Account::next_internal_pk` (account.rs lines 258-284): the
derivation path is built from the current `internal_index` (lines
259-264), the index is incremented (line 265) and only then is the key
derived along the previously built path and the
`(type, Internal, internal_index)` record persisted with the already
incremented index (lines 272-276). -/
def next_internal_pk (a : Account) (db : DBState) :
    PublicKey × Account × DBState :=
  let path : List Nat := [1, a.internal_index]
  let a1 := { a with internal_index := a.internal_index + 1 }
  let epk := a1.account_key.derive_priv path
  let pk := epk.toPublicKey
  let a2 := { a1 with internal_pk_list := a1.internal_pk_list ++ [pk] }
  let key : SecretKeyHelper := ⟨a2.address_type, .Internal, a2.internal_index⟩
  let db1 := (DB.put_internal_public_key db key pk).1
  (pk, a2, db1)

/-- `Account::addr_from_pk` (account.rs): format the public key per the
account's script type and network (delegating to the external `bitcoin`
crate; symbolic rendering). -/
def addr_from_pk (a : Account) (pk : PublicKey) : Addr :=
  ⟨a.network, a.address_type, pk⟩

/-- `Account::script_from_pk` (account.rs), symbolic rendering. -/
def script_from_pk (a : Account) (pk : PublicKey) : Script :=
  ⟨a.network, a.address_type, pk⟩

/-- `Account::new_address` (account.rs): issue the next external public
key, format it, record the address in memory and in the store. -/
def new_address (a : Account) (db : DBState) :
    Addr × Account × DBState :=
  let r := next_external_pk a db
  let pk := r.1
  let a1 := r.2.1
  let db1 := r.2.2
  let addr := a1.addr_from_pk pk
  let a2 := { a1 with btc_address_list := a1.btc_address_list ++ [addr] }
  let db2 := (DB.put_address db1 a2.address_type addr).1
  (addr, a2, db2)

/-- `Account::new_change_address` (account.rs): issue the next internal
public key, format it, record the address in memory and in the store. -/
def new_change_address (a : Account) (db : DBState) :
    Addr × Account × DBState :=
  let r := next_internal_pk a db
  let pk := r.1
  let a1 := r.2.1
  let db1 := r.2.2
  let addr := a1.addr_from_pk pk
  let a2 := { a1 with btc_address_list := a1.btc_address_list ++ [addr] }
  let db2 := (DB.put_address db1 a2.address_type addr).1
  (addr, a2, db2)

end Account

/-- Iterate `Account::next_external_pk` the given number of times,
threading the account and the store state. -/
def Account.iterExternal : Nat → Account × DBState → Account × DBState
  | 0, s => s
  | n + 1, s => Account.iterExternal n (Account.next_external_pk s.1 s.2).2

/-- Iterate `Account::next_internal_pk` the given number of times,
threading the account and the store state. -/
def Account.iterInternal : Nat → Account × DBState → Account × DBState
  | 0, s => s
  | n + 1, s => Account.iterInternal n (Account.next_internal_pk s.1 s.2).2

/-- A concrete testnet master key used by concrete instances in the
theorems below (the symbolic master with empty seed and root path). -/
def sampleKey : ExtendedPrivKey := ⟨.testnet, [], []⟩

/-! ## The wallet library

The `walletlibrary.rs` module is not among the sources; only its trait
declarations (`interface.rs`) and its callers (the integration tests)
are.  The definitions below are therefore modelled from the
specification, section 4.4, with the account-level pieces delegating to
the source-level `Account` operations above. -/

/-- Builder-side error kinds surfaced by the wallet library (spec §7). -/
inductive WalletErr where
  | UnknownOutpoint
  | InsufficientFunds
deriving DecidableEq, Repr

/-- A built transaction, reduced to what the wallet-level claims are
about: the spent outpoints, in order, and the (address, value)
outputs. -/
structure Tx where
  inputs : List OutPoint
  outputs : List (Addr × Nat)
deriving DecidableEq, Repr

/-- `FIXED_FEE` (spec §6): 10 000 satoshis, no fee estimation. -/
def FIXED_FEE : Nat := 10000

/-- Modelled from the spec: `WalletLibrary` state (§4.4) — three
accounts indexed by script type, the store handle, the network
parameter and the coin-lock table; the lock table carries the counter
generating fresh lock identifiers. -/
structure WalletLibrary where
  p2pkh : Account
  p2shwh : Account
  p2wkh : Account
  db : DBState
  network : Network
  lock_groups : List (LockId × LockGroup)
  next_lock_id : LockId
deriving DecidableEq, Repr

/-- Modelled from the spec: the sentinel `LockId` returned by
`send_coins` when `lock` is false (§4.4); `unlock_coins` treats it as a
no-op because allocated lock identifiers are distinct from it. -/
def sentinelLockId : LockId := 0

namespace WalletLibrary

/-- The three accounts in the fixed script-type order P2PKH, P2SH-WPKH,
P2WKH. -/
def accounts (w : WalletLibrary) : List Account :=
  [w.p2pkh, w.p2shwh, w.p2wkh]

/-- Modelled from the spec: `is_locked` (§4.7) is the union test over
the active lock groups. -/
def isLocked (w : WalletLibrary) (op : OutPoint) : Bool :=
  w.lock_groups.any (fun g => g.2.any (fun p => p = op))

/-- Modelled from the spec: `get_utxo_list` (§4.4) flattens the three
accounts' UTXO maps (insertion order within each account) and excludes
entries whose outpoints appear in any active lock group. -/
def get_utxo_list (w : WalletLibrary) : List Utxo :=
  ((w.accounts.map (fun a => a.utxo_list.map Prod.snd)).flatten).filter
    (fun u => !(isLocked w u.out_point))

/-- Modelled from the spec: `wallet_balance` (§4.4) is the sum of the
values in `get_utxo_list`. -/
def wallet_balance (w : WalletLibrary) : Nat :=
  ((w.get_utxo_list).map Utxo.value).sum

/-- Look an outpoint up across the three accounts' UTXO maps. -/
def findUtxo (w : WalletLibrary) (op : OutPoint) : Option Utxo :=
  match assocFind w.p2pkh.utxo_list op with
  | some u => some u
  | none =>
    match assocFind w.p2shwh.utxo_list op with
    | some u => some u
    | none => assocFind w.p2wkh.utxo_list op

/-- Gather the Utxos for the exact outpoints passed to `make_tx`, in
the caller's order; `none` when some outpoint is unknown to every
account. -/
def lookupAll (w : WalletLibrary) : List OutPoint → Option (List Utxo)
  | [] => some []
  | op :: rest =>
    match findUtxo w op, lookupAll w rest with
    | some u, some us => some (u :: us)
    | _, _ => none

/-- Issue a fresh internal P2WKH address through the source-level
`Account::new_change_address` on the P2WKH account. -/
def issueChangeAddress (w : WalletLibrary) : Addr × WalletLibrary :=
  let r := Account.new_change_address w.p2wkh w.db
  (r.1, { w with p2wkh := r.2.1, db := r.2.2 })

/-- Modelled from the spec: `make_tx` (§4.4) — spend exactly the
outpoints passed in, in the caller's order; fail `UnknownOutpoint` when
some outpoint is not in the wallet; fail `InsufficientFunds` when the
input sum is below `amount + FIXED_FEE`; otherwise emit the
`(destination, amount)` output and, exactly when the input sum exceeds
`amount + FIXED_FEE`, a change output for the remainder at a freshly
issued internal P2WKH address. -/
def make_tx (w : WalletLibrary) (ops : List OutPoint) (dest : Addr) (amt : Nat) :
    Except WalletErr (Tx × WalletLibrary) :=
  match lookupAll w ops with
  | none => .error .UnknownOutpoint
  | some utxos =>
    let total := (utxos.map Utxo.value).sum
    if total < amt + FIXED_FEE then .error .InsufficientFunds
    else if amt + FIXED_FEE < total then
      let r := issueChangeAddress w
      .ok (⟨ops, [(dest, amt), (r.1, total - (amt + FIXED_FEE))]⟩, r.2)
    else
      .ok (⟨ops, [(dest, amt)]⟩, w)

/-- Modelled from the spec: the `send_coins` coin selection (§4.4) —
iterate the available UTXOs in order, accumulating until the running
sum reaches the target; `none` when the list is exhausted first.  The
`target` argument is the amount still missing. -/
def selectCoins : List Utxo → Nat → Option (List Utxo)
  | _, 0 => some []
  | [], _ + 1 => none
  | u :: rest, t + 1 =>
    if t + 1 ≤ u.value then some [u]
    else (selectCoins rest (t + 1 - u.value)).map (fun l => u :: l)

/-- Modelled from the spec: `send_coins` (§4.4) — select coins from the
unlocked UTXO list (restricted to P2WKH coins when `witness_only`),
fail `InsufficientFunds` on exhaustion, build the transaction with the
fixed fee and a change output when needed and, when `lock_coins` is
set, atomically allocate a fresh `LockId` covering exactly the chosen
outpoints (persisting the group via the source-level
`DB::put_lock_group`); otherwise return the sentinel `LockId`. -/
def send_coins (w : WalletLibrary) (dest : Addr) (amt : Nat)
    (lock_coins : Bool) (witness_only : Bool) :
    Except WalletErr ((Tx × LockId) × WalletLibrary) :=
  let avail := (w.get_utxo_list).filter
    (fun u => !witness_only || decide (u.addr_type = AccountAddressType.P2WKH))
  match selectCoins avail (amt + FIXED_FEE) with
  | none => .error .InsufficientFunds
  | some chosen =>
    let ops := chosen.map Utxo.out_point
    let total := (chosen.map Utxo.value).sum
    let r :=
      if amt + FIXED_FEE < total then
        let rc := issueChangeAddress w
        ((⟨ops, [(dest, amt), (rc.1, total - (amt + FIXED_FEE))]⟩ : Tx), rc.2)
      else ((⟨ops, [(dest, amt)]⟩ : Tx), w)
    if lock_coins then
      let lid := r.2.next_lock_id
      let w2 : WalletLibrary :=
        { r.2 with
          lock_groups := r.2.lock_groups ++ [(lid, ops)],
          next_lock_id := lid + 1,
          db := (DB.put_lock_group r.2.db lid ops).1 }
      .ok ((r.1, lid), w2)
    else
      .ok ((r.1, sentinelLockId), r.2)

/-- Modelled from the spec: `unlock_coins` (§4.4) — remove the lock
group with the given identifier; an unknown identifier is silently
ignored. -/
def unlock_coins (w : WalletLibrary) (lid : LockId) : WalletLibrary :=
  { w with lock_groups := w.lock_groups.filter (fun p => !(p.1 = lid : Bool)) }

/-- `new_address` (§4.4): delegate to the source-level
`Account::new_address` of the selected account. -/
def new_address (w : WalletLibrary) (t : AccountAddressType) : Addr × WalletLibrary :=
  match t with
  | .P2PKH =>
    let r := Account.new_address w.p2pkh w.db
    (r.1, { w with p2pkh := r.2.1, db := r.2.2 })
  | .P2SHWH =>
    let r := Account.new_address w.p2shwh w.db
    (r.1, { w with p2shwh := r.2.1, db := r.2.2 })
  | .P2WKH =>
    let r := Account.new_address w.p2wkh w.db
    (r.1, { w with p2wkh := r.2.1, db := r.2.2 })

/-- `new_change_address` (§4.4): delegate to the source-level
`Account::new_change_address` of the selected account. -/
def new_change_address (w : WalletLibrary) (t : AccountAddressType) :
    Addr × WalletLibrary :=
  match t with
  | .P2PKH =>
    let r := Account.new_change_address w.p2pkh w.db
    (r.1, { w with p2pkh := r.2.1, db := r.2.2 })
  | .P2SHWH =>
    let r := Account.new_change_address w.p2shwh w.db
    (r.1, { w with p2shwh := r.2.1, db := r.2.2 })
  | .P2WKH =>
    let r := Account.new_change_address w.p2wkh w.db
    (r.1, { w with p2wkh := r.2.1, db := r.2.2 })

/-- Fold an incoming Utxo into the selected account through the
source-level `Account::grab_utxo` (the tracker's action on a matched
output). -/
def grabUtxo (w : WalletLibrary) (t : AccountAddressType) (u : Utxo) :
    WalletLibrary :=
  match t with
  | .P2PKH =>
    let r := Account.grab_utxo w.p2pkh w.db u
    { w with p2pkh := r.1, db := r.2 }
  | .P2SHWH =>
    let r := Account.grab_utxo w.p2shwh w.db u
    { w with p2shwh := r.1, db := r.2 }
  | .P2WKH =>
    let r := Account.grab_utxo w.p2wkh w.db u
    { w with p2wkh := r.1, db := r.2 }

/-- Well-formedness of the lock table: every allocated lock identifier
is below the freshness counter. -/
def WF (w : WalletLibrary) : Prop :=
  ∀ p ∈ w.lock_groups, p.1 < w.next_lock_id

end WalletLibrary

/-- The serialized wallet-library operations that may run between a
locking `send_coins` and the release of its lock. -/
inductive WOp where
  | send (dest : Addr) (amt : Nat) (lock_coins witness_only : Bool)
  | unlock (lid : LockId)
  | newAddress (t : AccountAddressType)
  | newChange (t : AccountAddressType)
  | grab (t : AccountAddressType) (u : Utxo)

/-- Whether an operation releases the given lock. -/
def WOp.unlocks (lock : LockId) : WOp → Prop
  | .unlock lid => lid = lock
  | _ => False

/-- Run one wallet-library operation for its state effect. -/
def WalletLibrary.applyOp (w : WalletLibrary) : WOp → WalletLibrary
  | .send dest amt lock_coins witness_only =>
    match WalletLibrary.send_coins w dest amt lock_coins witness_only with
    | .ok r => r.2
    | .error _ => w
  | .unlock lid => WalletLibrary.unlock_coins w lid
  | .newAddress t => (WalletLibrary.new_address w t).2
  | .newChange t => (WalletLibrary.new_change_address w t).2
  | .grab t u => WalletLibrary.grabUtxo w t u

/-- Run a sequence of wallet-library operations. -/
def WalletLibrary.applyOps (w : WalletLibrary) (l : List WOp) : WalletLibrary :=
  l.foldl WalletLibrary.applyOp w

/-- A concrete outpoint used by the concrete wallet below. -/
def cOut : OutPoint := ⟨7, 0⟩

/-- A concrete 1 BTC P2WKH coin sitting on the concrete wallet's P2WKH
account. -/
def cUtxo : Utxo :=
  ⟨100000000, ⟨.External, 0⟩, cOut, 2,
    ⟨.testnet, .P2WKH, ExtendedPrivKey.toPublicKey sampleKey⟩, .P2WKH⟩

/-- A concrete wallet: three fresh accounts, the P2WKH one holding the
single coin `cUtxo`; empty lock table, lock counter at 1. -/
def cWallet : WalletLibrary :=
  ⟨Account.new sampleKey .P2PKH .testnet,
   Account.new sampleKey .P2SHWH .testnet,
   { Account.new sampleKey .P2WKH .testnet with utxo_list := [(cOut, cUtxo)] },
   DBState.default, .testnet, [], 1⟩

/-- A concrete destination address. -/
def cDest : Addr := ⟨.testnet, .P2WKH, ExtendedPrivKey.toPublicKey sampleKey⟩

/-- The outcome of one locking `send_coins` on the concrete wallet. -/
def cRun : Except WalletErr ((Tx × LockId) × WalletLibrary) :=
  WalletLibrary.send_coins cWallet cDest 50000000 true false

/-- The transaction built by that locking `send_coins`. -/
def cTx : Tx :=
  match cRun with
  | .ok r => r.1.1
  | .error _ => ⟨[], []⟩

/-- The wallet state after that locking `send_coins`. -/
def cW1 : WalletLibrary :=
  match cRun with
  | .ok r => r.2
  | .error _ => cWallet

/-! ## SHA-2, HMAC and PBKDF2

`Seed::new` (keyfactory.rs) delegates to the external `crypto` crate:
`pbkdf2(Hmac::new(Sha512::new(), key), salt, 2048, out[64])`.  The hash,
the MAC and the key-derivation function are implemented here in full
(FIPS 180-4 / RFC 2104 / RFC 2898), with bytes as natural numbers below
256 and machine words as natural numbers reduced modulo the word size.
The SHA-2 round constants are computed, as in the standard, from the
fractional parts of the cube roots (respectively square roots) of the
first primes. -/

/-- The largest `r` with `r ^ 3 ≤ n`, for `n < 2 ^ 210` (binary digit
construction). -/
def cubeRootLe (n : Nat) : Nat :=
  (List.range 70).reverse.foldl
    (fun r b => let c := r + 2 ^ b; if c ^ 3 ≤ n then c else r) 0

/-- The first `n` natural numbers that are prime. -/
def firstPrimes (bound n : Nat) : List Nat :=
  ((List.range bound).filter (fun k => Nat.Prime k)).take n

/-- SHA-512 round constants: the first 64 bits of the fractional parts
of the cube roots of the first 80 primes. -/
def sha512K : List Nat :=
  (firstPrimes 410 80).map (fun p => cubeRootLe (p * 2 ^ 192) % 2 ^ 64)

/-- SHA-512 initial state: the first 64 bits of the fractional parts of
the square roots of the first 8 primes. -/
def sha512IV : List Nat :=
  (firstPrimes 20 8).map (fun p => Nat.sqrt (p * 2 ^ 128) % 2 ^ 64)

/-- SHA-256 round constants: the first 32 bits of the fractional parts
of the cube roots of the first 64 primes. -/
def sha256K : List Nat :=
  (firstPrimes 312 64).map (fun p => cubeRootLe (p * 2 ^ 96) % 2 ^ 32)

/-- SHA-256 initial state: the first 32 bits of the fractional parts of
the square roots of the first 8 primes. -/
def sha256IV : List Nat :=
  (firstPrimes 20 8).map (fun p => Nat.sqrt (p * 2 ^ 64) % 2 ^ 32)

/-- Rotate a `w`-bit word right by `k`. -/
def rotr (w x k : Nat) : Nat :=
  ((x >>> k) ||| (x <<< (w - k))) % 2 ^ w

/-- Bitwise choice: `(x AND y) XOR (NOT x AND z)` on `w`-bit words. -/
def chW (w x y z : Nat) : Nat :=
  (x &&& y) ^^^ (((2 ^ w - 1) ^^^ x) &&& z)

/-- Bitwise majority. -/
def majW (x y z : Nat) : Nat :=
  (x &&& y) ^^^ (x &&& z) ^^^ (y &&& z)

/-- The eight chaining variables of a SHA-2 compression. -/
structure Sha2State where
  a : Nat
  b : Nat
  c : Nat
  d : Nat
  e : Nat
  f : Nat
  g : Nat
  h : Nat
deriving DecidableEq, Repr

/-- Big-endian byte rendering of `x` on `c` bytes. -/
def toBytesBE (c x : Nat) : List Nat :=
  (List.range c).reverse.map (fun i => (x >>> (8 * i)) % 256)

/-- Split into chunks of `n` elements (fuel-bounded by the length). -/
def chunksOfAux {α : Type} (n : Nat) : Nat → List α → List (List α)
  | 0, _ => []
  | _ + 1, [] => []
  | fuel + 1, l => l.take n :: chunksOfAux n fuel (l.drop n)

/-- Split a list into chunks of `n` elements (`n ≥ 1`). -/
def chunksOf {α : Type} (n : Nat) (l : List α) : List (List α) :=
  chunksOfAux n l.length l

/-- Big-endian words of `wb` bytes each from a byte list. -/
def bytesToWordsBE (wb : Nat) (l : List Nat) : List Nat :=
  (chunksOf wb l).map (fun c => c.foldl (fun acc b => acc * 256 + b) 0)

/-- SHA-512 message-schedule extension: append `n` more words, each
`sigma1 W[t-2] + W[t-7] + sigma0 W[t-15] + W[t-16]` modulo `2 ^ 64`. -/
def sha512Extend : Nat → List Nat → List Nat
  | 0, ws => ws
  | n + 1, ws =>
    let t := ws.length
    let word :=
      ((rotr 64 (ws.getD (t - 2) 0) 19 ^^^ rotr 64 (ws.getD (t - 2) 0) 61
          ^^^ (ws.getD (t - 2) 0 >>> 6))
        + ws.getD (t - 7) 0
        + (rotr 64 (ws.getD (t - 15) 0) 1 ^^^ rotr 64 (ws.getD (t - 15) 0) 8
            ^^^ (ws.getD (t - 15) 0 >>> 7))
        + ws.getD (t - 16) 0) % 2 ^ 64
    sha512Extend n (ws ++ [word])

/-- One SHA-512 round on the chaining variables, for one `(K, W)`
pair. -/
def sha512Round (s : Sha2State) (kw : Nat × Nat) : Sha2State :=
  let t1 := (s.h
    + (rotr 64 s.e 14 ^^^ rotr 64 s.e 18 ^^^ rotr 64 s.e 41)
    + chW 64 s.e s.f s.g + kw.1 + kw.2) % 2 ^ 64
  let t2 := ((rotr 64 s.a 28 ^^^ rotr 64 s.a 34 ^^^ rotr 64 s.a 39)
    + majW s.a s.b s.c) % 2 ^ 64
  ⟨(t1 + t2) % 2 ^ 64, s.a, s.b, s.c, (s.d + t1) % 2 ^ 64, s.e, s.f, s.g⟩

/-- SHA-512 compression of one 16-word block into the state. -/
def sha512Compress (st : Sha2State) (block : List Nat) : Sha2State :=
  let ws := sha512Extend 64 block
  let fin := (sha512K.zip ws).foldl sha512Round st
  ⟨(st.a + fin.a) % 2 ^ 64, (st.b + fin.b) % 2 ^ 64, (st.c + fin.c) % 2 ^ 64,
   (st.d + fin.d) % 2 ^ 64, (st.e + fin.e) % 2 ^ 64, (st.f + fin.f) % 2 ^ 64,
   (st.g + fin.g) % 2 ^ 64, (st.h + fin.h) % 2 ^ 64⟩

/-- SHA-512 padding: `0x80`, zeros to 112 mod 128, then the bit length
on 16 big-endian bytes. -/
def sha512Pad (msg : List Nat) : List Nat :=
  msg ++ [128] ++ List.replicate ((128 - ((msg.length + 17) % 128)) % 128) 0
    ++ toBytesBE 16 (8 * msg.length)

/-- SHA-512 of a byte string, as 64 bytes. -/
def sha512 (msg : List Nat) : List Nat :=
  let st0 : Sha2State :=
    ⟨sha512IV.getD 0 0, sha512IV.getD 1 0, sha512IV.getD 2 0, sha512IV.getD 3 0,
     sha512IV.getD 4 0, sha512IV.getD 5 0, sha512IV.getD 6 0, sha512IV.getD 7 0⟩
  let fin := (chunksOf 128 (sha512Pad msg)).foldl
    (fun st b => sha512Compress st (bytesToWordsBE 8 b)) st0
  toBytesBE 8 fin.a ++ toBytesBE 8 fin.b ++ toBytesBE 8 fin.c ++ toBytesBE 8 fin.d
    ++ toBytesBE 8 fin.e ++ toBytesBE 8 fin.f ++ toBytesBE 8 fin.g ++ toBytesBE 8 fin.h

/-- SHA-256 message-schedule extension. -/
def sha256Extend : Nat → List Nat → List Nat
  | 0, ws => ws
  | n + 1, ws =>
    let t := ws.length
    let word :=
      ((rotr 32 (ws.getD (t - 2) 0) 17 ^^^ rotr 32 (ws.getD (t - 2) 0) 19
          ^^^ (ws.getD (t - 2) 0 >>> 10))
        + ws.getD (t - 7) 0
        + (rotr 32 (ws.getD (t - 15) 0) 7 ^^^ rotr 32 (ws.getD (t - 15) 0) 18
            ^^^ (ws.getD (t - 15) 0 >>> 3))
        + ws.getD (t - 16) 0) % 2 ^ 32
    sha256Extend n (ws ++ [word])

/-- One SHA-256 round. -/
def sha256Round (s : Sha2State) (kw : Nat × Nat) : Sha2State :=
  let t1 := (s.h
    + (rotr 32 s.e 6 ^^^ rotr 32 s.e 11 ^^^ rotr 32 s.e 25)
    + chW 32 s.e s.f s.g + kw.1 + kw.2) % 2 ^ 32
  let t2 := ((rotr 32 s.a 2 ^^^ rotr 32 s.a 13 ^^^ rotr 32 s.a 22)
    + majW s.a s.b s.c) % 2 ^ 32
  ⟨(t1 + t2) % 2 ^ 32, s.a, s.b, s.c, (s.d + t1) % 2 ^ 32, s.e, s.f, s.g⟩

/-- SHA-256 compression of one 16-word block. -/
def sha256Compress (st : Sha2State) (block : List Nat) : Sha2State :=
  let ws := sha256Extend 48 block
  let fin := (sha256K.zip ws).foldl sha256Round st
  ⟨(st.a + fin.a) % 2 ^ 32, (st.b + fin.b) % 2 ^ 32, (st.c + fin.c) % 2 ^ 32,
   (st.d + fin.d) % 2 ^ 32, (st.e + fin.e) % 2 ^ 32, (st.f + fin.f) % 2 ^ 32,
   (st.g + fin.g) % 2 ^ 32, (st.h + fin.h) % 2 ^ 32⟩

/-- SHA-256 padding: `0x80`, zeros to 56 mod 64, then the bit length on
8 big-endian bytes. -/
def sha256Pad (msg : List Nat) : List Nat :=
  msg ++ [128] ++ List.replicate ((64 - ((msg.length + 9) % 64)) % 64) 0
    ++ toBytesBE 8 (8 * msg.length)

/-- SHA-256 of a byte string, as 32 bytes. -/
def sha256 (msg : List Nat) : List Nat :=
  let st0 : Sha2State :=
    ⟨sha256IV.getD 0 0, sha256IV.getD 1 0, sha256IV.getD 2 0, sha256IV.getD 3 0,
     sha256IV.getD 4 0, sha256IV.getD 5 0, sha256IV.getD 6 0, sha256IV.getD 7 0⟩
  let fin := (chunksOf 64 (sha256Pad msg)).foldl
    (fun st b => sha256Compress st (bytesToWordsBE 4 b)) st0
  toBytesBE 4 fin.a ++ toBytesBE 4 fin.b ++ toBytesBE 4 fin.c ++ toBytesBE 4 fin.d
    ++ toBytesBE 4 fin.e ++ toBytesBE 4 fin.f ++ toBytesBE 4 fin.g ++ toBytesBE 4 fin.h

/-- HMAC-SHA512 (RFC 2104): block size 128 bytes. -/
def hmacSha512 (key msg : List Nat) : List Nat :=
  let k0 := if 128 < key.length then sha512 key else key
  let kp := k0 ++ List.replicate (128 - k0.length) 0
  sha512 ((kp.map (fun b => b ^^^ 92)) ++ sha512 ((kp.map (fun b => b ^^^ 54)) ++ msg))

/-- Byte-wise XOR of two equal-length strings. -/
def xorBytes (a b : List Nat) : List Nat :=
  List.zipWith (fun x y => x ^^^ y) a b

/-- The inner PBKDF2 iteration: from `U_j` and the running XOR, apply
the PRF `n` more times. -/
def pbkdf2Iter (key : List Nat) : Nat → List Nat → List Nat → List Nat
  | 0, _, acc => acc
  | n + 1, u, acc =>
    let u2 := hmacSha512 key u
    pbkdf2Iter key n u2 (xorBytes acc u2)

/-- The PBKDF2 block `T_i = U_1 XOR ... XOR U_c` with
`U_1 = PRF(P, S || INT_BE32(i))` (RFC 2898, PRF = HMAC-SHA512). -/
def pbkdf2Block (key salt : List Nat) (c i : Nat) : List Nat :=
  let u1 := hmacSha512 key (salt ++ toBytesBE 4 i)
  pbkdf2Iter key (c - 1) u1 u1

/-- The external `crypto` crate's `pbkdf2::pbkdf2` with an
HMAC-SHA512 MAC: concatenate `ceil(dkLen/64)` blocks and keep the first
`dkLen` bytes. -/
def cryptoPbkdf2 (key salt : List Nat) (c dkLen : Nat) : List Nat :=
  ((List.range ((dkLen + 63) / 64)).map
      (fun i => pbkdf2Block key salt c (i + 1))).flatten.take dkLen

/-- PBKDF2-HMAC-SHA512 with 64-byte output, as the specification words
it: the 64-byte output is exactly the first block `T_1`. -/
def pbkdf2HmacSha512_64 (key salt : List Nat) (iters : Nat) : List Nat :=
  pbkdf2Block key salt iters 1

/-! ## Mnemonic, seed and key factory

`mnemonic.rs` and `error.rs` are not among the sources; `Mnemonic` and
the error kinds are modelled from the specification (§4.1, §7).
`keyfactory.rs` is a source file and its functions are embedded from
the source, with the OS random source and the external BIP32 master-key
constructor modelled as described. -/

/-- Error kinds of the wallet (spec §7; `error.rs` absent from the
sources), restricted to those the key factory surfaces. -/
inductive WalletError where
  | CannotObtainRandomSource
  | InvalidEntropyLength
  | KeyDerivation
deriving DecidableEq, Repr

/-- Modelled from the spec: a word of the BIP39 English word list,
rendered as bytes.  The 2048-word list itself is external data not
contained in the repository; a word is represented by the two-byte
big-endian rendering of its 11-bit index, which preserves everything
the claims depend on (the word sequence and its space-joined
rendering). -/
def bip39WordBytes (i : Nat) : List Nat :=
  [i / 256 % 256, i % 256]

/-- `Mnemonic` (module absent from the sources).  Modelled from the
spec: the ordered sequence of word-list indices. -/
structure Mnemonic where
  words : List Nat
deriving DecidableEq, Repr

/-- Modelled from the spec: `Mnemonic::to_string` is the space-joined
words (§4.1); here, the byte string joining the word renderings with
`0x20`. -/
def Mnemonic.toBytes (m : Mnemonic) : List Nat :=
  List.intercalate [32] (m.words.map bip39WordBytes)

/-- The bits of a byte string, most significant bit of each byte
first. -/
def bytesToBits (l : List Nat) : List Bool :=
  (l.map (fun b => (List.range 8).map (fun i => b.testBit (7 - i)))).flatten

/-- A big-endian bit group as a number. -/
def bitsToNat (bits : List Bool) : Nat :=
  bits.foldl (fun acc bit => 2 * acc + (if bit then 1 else 0)) 0

/-- Modelled from the spec: the BIP39 word indices of an entropy string
(§4.1) — append the leading `len/4` checksum bits of `SHA-256(entropy)`
to the entropy bits and split into 11-bit groups. -/
def mnemonicWordIndices (entropy : List Nat) : List Nat :=
  (chunksOf 11
      (bytesToBits entropy ++ (bytesToBits (sha256 entropy)).take (entropy.length / 4))).map
    bitsToNat

/-- Modelled from the spec: `Mnemonic::new` / `from_entropy` (§4.1) —
entropy length must be 16, 32 or 64; the passphrase is accepted for API
symmetry but does not alter the word list. -/
def Mnemonic.new (entropy : List Nat) (_passphrase : List Nat) :
    Except WalletError Mnemonic :=
  if entropy.length = 16 ∨ entropy.length = 32 ∨ entropy.length = 64 then
    .ok ⟨mnemonicWordIndices entropy⟩
  else .error .InvalidEntropyLength

/-- `Seed` (keyfactory.rs): 64 bytes. -/
structure Seed where
  bytes : List Nat
deriving DecidableEq, Repr

/-- The UTF-8 bytes of the literal `"mnemonic"`. -/
def mnemonicSaltBytes : List Nat := [109, 110, 101, 109, 111, 110, 105, 99]

/-- `Seed::new` (keyfactory.rs lines 125-138): PBKDF2 through the
external `crypto` crate, with the HMAC-SHA512 MAC keyed by the bytes of
the mnemonic's space-joined rendering, the salt `"mnemonic" + salt`,
2048 iterations and a 64-byte output buffer. -/
def Seed.new (m : Mnemonic) (salt : List Nat) : Seed :=
  ⟨cryptoPbkdf2 (Mnemonic.toBytes m) (mnemonicSaltBytes ++ salt) 2048 64⟩

/-- `MasterKeyEntropy` (keyfactory.rs): the entropy class, valued as its
byte count. -/
inductive MasterKeyEntropy where
  | Low
  | Recommended
  | Paranoid
deriving DecidableEq, Repr

/-- The byte count of an entropy class (the discriminant values 16, 32,
64 of keyfactory.rs). -/
def MasterKeyEntropy.size : MasterKeyEntropy → Nat
  | .Low => 16
  | .Recommended => 32
  | .Paranoid => 64

namespace KeyFactory

/-- `KeyFactory::master_private_key` (keyfactory.rs):
`ExtendedPrivKey::new_master(network, seed)` of the external `bitcoin`
crate, symbolically the master key determined by the network and the
seed bytes; the crate's failure case does not arise in the symbolic
model. -/
def master_private_key (network : Network) (seed : Seed) :
    Except WalletError ExtendedPrivKey :=
  .ok ⟨network, seed.bytes, []⟩

/-- `KeyFactory::new_master_private_key` (keyfactory.rs lines 34-52).
The OS random source is modelled as an optional byte stream: `none`
means `OsRng::new()` failed (`CannotObtainRandomSource`); otherwise the
`entropy`-sized buffer starts zeroed and, unless `debug`, is filled
from the stream (padded with zeros, matching the fixed buffer size). -/
def new_master_private_key (entropy : MasterKeyEntropy) (network : Network)
    (passphrase salt : List Nat) (debug : Bool) (osRng : Option (List Nat)) :
    Except WalletError (ExtendedPrivKey × Mnemonic × List Nat) :=
  match osRng with
  | some randomBytes =>
    let encrypted :=
      if debug then List.replicate entropy.size 0
      else (randomBytes ++ List.replicate entropy.size 0).take entropy.size
    match Mnemonic.new encrypted passphrase with
    | .error e => .error e
    | .ok mnemonic =>
      let seed := Seed.new mnemonic salt
      match master_private_key network seed with
      | .error e => .error e
      | .ok key => .ok (key, mnemonic, encrypted)
  | none => .error .CannotObtainRandomSource

/-- `KeyFactory::decrypt` (keyfactory.rs lines 55-65): rebuild the
mnemonic, the seed and the master key from the stored entropy. -/
def decrypt (encrypted : List Nat) (network : Network)
    (passphrase salt : List Nat) :
    Except WalletError (ExtendedPrivKey × Mnemonic) :=
  match Mnemonic.new encrypted passphrase with
  | .error e => .error e
  | .ok mnemonic =>
    let seed := Seed.new mnemonic salt
    match master_private_key network seed with
    | .error e => .error e
    | .ok key => .ok (key, mnemonic)

end KeyFactory

/-! ## Lemmas about the account operations -/

theorem next_external_pk_snd (a : Account) (db : DBState) :
    (Account.next_external_pk a db).2.1
      = { a with
          external_pk_list :=
            a.external_pk_list
              ++ [(a.account_key.derive_priv [0, a.external_index]).toPublicKey],
          external_index := a.external_index + 1 } := by
  simp [Account.next_external_pk]

theorem next_internal_pk_snd (a : Account) (db : DBState) :
    (Account.next_internal_pk a db).2.1
      = { a with
          internal_pk_list :=
            a.internal_pk_list
              ++ [(a.account_key.derive_priv [1, a.internal_index]).toPublicKey],
          internal_index := a.internal_index + 1 } := by
  simp [Account.next_internal_pk]

theorem iterExternal_spec (n : Nat) (a : Account) (db : DBState) :
    (Account.iterExternal n (a, db)).1.account_key = a.account_key
    ∧ (Account.iterExternal n (a, db)).1.external_index = a.external_index + n
    ∧ (Account.iterExternal n (a, db)).1.external_pk_list
      = a.external_pk_list
        ++ (List.range n).map
            (fun j => (a.account_key.derive_priv [0, a.external_index + j]).toPublicKey) := by
  induction n generalizing a db with
  | zero => simp [Account.iterExternal]
  | succ n ih =>
    have hstep : Account.iterExternal (n + 1) (a, db)
        = Account.iterExternal n ((Account.next_external_pk a db).2) := rfl
    rw [hstep]
    have h2 : (Account.next_external_pk a db).2
        = ((Account.next_external_pk a db).2.1, (Account.next_external_pk a db).2.2) := rfl
    rw [h2, next_external_pk_snd a db]
    obtain ⟨ihk, ihi, ihl⟩ := ih _ ((Account.next_external_pk a db).2.2)
    refine ⟨by simpa using ihk, by simpa [Nat.add_assoc, Nat.add_comm 1 n] using ihi, ?_⟩
    rw [ihl]
    have hrange : (List.range (n + 1)).map
          (fun j => (a.account_key.derive_priv [0, a.external_index + j]).toPublicKey)
        = (a.account_key.derive_priv [0, a.external_index]).toPublicKey
          :: (List.range n).map
              (fun j => (a.account_key.derive_priv [0, a.external_index + 1 + j]).toPublicKey) := by
      rw [List.range_succ_eq_map, List.map_cons, List.map_map]
      simp only [List.cons.injEq, List.map_inj_left, Function.comp_apply, List.mem_range,
        Nat.succ_eq_add_one, Nat.add_zero]
      refine ⟨trivial, fun j hj => ?_⟩
      rw [show a.external_index + (j + 1) = a.external_index + 1 + j from by omega]
    rw [hrange]
    simp [List.append_assoc]

theorem iterInternal_spec (n : Nat) (a : Account) (db : DBState) :
    (Account.iterInternal n (a, db)).1.account_key = a.account_key
    ∧ (Account.iterInternal n (a, db)).1.internal_index = a.internal_index + n
    ∧ (Account.iterInternal n (a, db)).1.internal_pk_list
      = a.internal_pk_list
        ++ (List.range n).map
            (fun j => (a.account_key.derive_priv [1, a.internal_index + j]).toPublicKey) := by
  induction n generalizing a db with
  | zero => simp [Account.iterInternal]
  | succ n ih =>
    have hstep : Account.iterInternal (n + 1) (a, db)
        = Account.iterInternal n ((Account.next_internal_pk a db).2) := rfl
    rw [hstep]
    have h2 : (Account.next_internal_pk a db).2
        = ((Account.next_internal_pk a db).2.1, (Account.next_internal_pk a db).2.2) := rfl
    rw [h2, next_internal_pk_snd a db]
    obtain ⟨ihk, ihi, ihl⟩ := ih _ ((Account.next_internal_pk a db).2.2)
    refine ⟨by simpa using ihk, by simpa [Nat.add_assoc, Nat.add_comm 1 n] using ihi, ?_⟩
    rw [ihl]
    have hrange : (List.range (n + 1)).map
          (fun j => (a.account_key.derive_priv [1, a.internal_index + j]).toPublicKey)
        = (a.account_key.derive_priv [1, a.internal_index]).toPublicKey
          :: (List.range n).map
              (fun j => (a.account_key.derive_priv [1, a.internal_index + 1 + j]).toPublicKey) := by
      rw [List.range_succ_eq_map, List.map_cons, List.map_map]
      simp only [List.cons.injEq, List.map_inj_left, Function.comp_apply, List.mem_range,
        Nat.succ_eq_add_one, Nat.add_zero]
      refine ⟨trivial, fun j hj => ?_⟩
      rw [show a.internal_index + (j + 1) = a.internal_index + 1 + j from by omega]
    rw [hrange]
    simp [List.append_assoc]

/-! ## Claims about the account and the store -/

/-- C1, counterexample.  On a fresh P2WKH account, the single record
`next_internal_pk` writes to the store's internal pubkey list carries
index label `i = 1`, and its public key is the one derived at
`m/1/0` — not, as the claim states, the one derived at
`m/1/(i+1) = m/1/2`. -/
theorem c1_counterexample :
    (Account.next_internal_pk (Account.new sampleKey .P2WKH .testnet)
        DBState.default).2.2.internal_public_key_list
      = [(⟨.P2WKH, .Internal, 1⟩, (sampleKey.derive_priv [1, 0]).toPublicKey)]
    ∧ (sampleKey.derive_priv [1, 0]).toPublicKey
        ≠ (sampleKey.derive_priv [1, 1 + 1]).toPublicKey := by
  constructor
  · rfl
  · decide

/-- C1, amended: `next_internal_pk` builds the derivation path from the
pre-increment index and increments the internal index before persisting
the record, so the record written to the store's internal pubkey list
under index label `i = internal_index + 1` carries the key derived at
`m/1/(i-1)` — the derivation itself uses the original index. -/
theorem c1_amended (a : Account) (db : DBState) :
    (Account.next_internal_pk a db).2.2.internal_public_key_list
      = db.internal_public_key_list
        ++ [(⟨a.address_type, .Internal, a.internal_index + 1⟩,
             (a.account_key.derive_priv [1, (a.internal_index + 1) - 1]).toPublicKey)] := by
  simp [Account.next_internal_pk, DB.put_internal_public_key]

/-- C2: every `DB::put_*` mutation records its change in the in-memory
`State`, but the `DB::store` call it then performs is `unimplemented!()`
and panics (modelled as the `none` outcome), aborting the operation:
the second components below are the outcomes of the internal `store`
call of each of the eight mutators, evaluated on arbitrary inputs. -/
theorem c2_store_aborts_every_put (s : DBState) (r : List Nat) (n : Nat)
    (op : OutPoint) (u : Utxo) (kh : SecretKeyHelper) (pk : PublicKey)
    (t : AccountAddressType) (ad : Addr) (lid : LockId) (lg : LockGroup) :
    (DB.put_bip39_randomness s r).2 = none
    ∧ (DB.put_last_seen_block_height s n).2 = none
    ∧ (DB.put_utxo s op u).2 = none
    ∧ (DB.delete_utxo s op).2 = none
    ∧ (DB.put_external_public_key s kh pk).2 = none
    ∧ (DB.put_internal_public_key s kh pk).2 = none
    ∧ (DB.put_address s t ad).2 = none
    ∧ (DB.put_lock_group s lid lg).2 = none
    ∧ (DB.put_bip39_randomness s r).1.bip39_randomness = some r
    ∧ (DB.put_last_seen_block_height s n).1.last_seen_block_height = n := by
  refine ⟨rfl, rfl, rfl, rfl, rfl, rfl, ?_, rfl, rfl, rfl⟩
  cases t <;> rfl

/-- C3, counterexample.  A fresh P2PKH account with internal counter
`i = 0`: after the `next_internal_pk` call the in-memory vector does
have length `i + 1 = 1`, but the store's internal pubkey list holds no
entry with index label `0` — the single entry written carries label
`1`. -/
theorem c3_counterexample :
    ((Account.next_internal_pk (Account.new sampleKey .P2PKH .testnet)
        DBState.default).2.2.internal_public_key_list.all
          (fun e => e.1.index ≠ 0)) = true
    ∧ (Account.next_internal_pk (Account.new sampleKey .P2PKH .testnet)
        DBState.default).2.1.internal_pk_list.length = 1 := by
  decide

/-- C3, amended.  After a successful `next_external_pk` made when the
external counter equals `i`, the external pubkey vector has length
`i + 1` and the store's external pubkey list contains the entry
`(ScriptType, External, i, pk)` for the returned key `pk`; after a
successful `next_internal_pk` made when the internal counter equals
`j`, the internal pubkey vector has length `j + 1` but the entry the
store's internal pubkey list contains for the returned key is
`(ScriptType, Internal, j + 1, pk)`. -/
theorem c3_amended (a : Account) (db : DBState) (i j : Nat)
    (hx : a.external_index = i) (hxl : a.external_pk_list.length = i)
    (hi : a.internal_index = j) (hil : a.internal_pk_list.length = j) :
    ((Account.next_external_pk a db).2.1.external_pk_list.length = i + 1
      ∧ (⟨a.address_type, .External, i⟩, (Account.next_external_pk a db).1)
          ∈ (Account.next_external_pk a db).2.2.external_public_key_list)
    ∧ ((Account.next_internal_pk a db).2.1.internal_pk_list.length = j + 1
      ∧ (⟨a.address_type, .Internal, j + 1⟩, (Account.next_internal_pk a db).1)
          ∈ (Account.next_internal_pk a db).2.2.internal_public_key_list) := by
  subst hx hi
  refine ⟨⟨?_, ?_⟩, ?_, ?_⟩
  · simp [Account.next_external_pk, hxl]
  · simp [Account.next_external_pk, DB.put_external_public_key]
  · simp [Account.next_internal_pk, hil]
  · simp [Account.next_internal_pk, DB.put_internal_public_key]

/-- C3, witness: the amended statement instantiated on a fresh P2SHWH
account over the default store state, with both counters at zero. -/
theorem c3_amended_witness :
    ((Account.next_external_pk (Account.new sampleKey .P2SHWH .testnet)
        DBState.default).2.1.external_pk_list.length = 0 + 1
      ∧ (⟨.P2SHWH, .External, 0⟩,
          (Account.next_external_pk (Account.new sampleKey .P2SHWH .testnet)
            DBState.default).1)
          ∈ (Account.next_external_pk (Account.new sampleKey .P2SHWH .testnet)
              DBState.default).2.2.external_public_key_list)
    ∧ ((Account.next_internal_pk (Account.new sampleKey .P2SHWH .testnet)
        DBState.default).2.1.internal_pk_list.length = 0 + 1
      ∧ (⟨.P2SHWH, .Internal, 0 + 1⟩,
          (Account.next_internal_pk (Account.new sampleKey .P2SHWH .testnet)
            DBState.default).1)
          ∈ (Account.next_internal_pk (Account.new sampleKey .P2SHWH .testnet)
              DBState.default).2.2.internal_public_key_list) :=
  c3_amended (Account.new sampleKey .P2SHWH .testnet) DBState.default 0 0
    rfl rfl rfl rfl

/-- C9: for every store state, `get_full_address_list` returns exactly
the P2PKH address list, then the P2SH-WPKH address list, then the P2WKH
address list, concatenated in that fixed order. -/
theorem c9_full_address_list (s : DBState) :
    DB.get_full_address_list s
      = s.p2pkh_address_list ++ (s.p2shwh_address_list ++ s.p2wkh_address_list) := by
  simp [DB.get_full_address_list]

/-- C10: starting from a fresh account, after `n + 1` successful calls
to a chain's `next_*_pk`, the public key stored at position `n` of that
chain's in-memory pubkey vector is exactly the public key of the
private key `get_sk` returns for `KeyPath(chain, n)` — both are the
derivation `m/chain/n` below the account key, re-derived on each
call. -/
theorem c10_sk_matches_issued_pk (key : ExtendedPrivKey)
    (t : AccountAddressType) (net : Network) (db : DBState) (n : Nat) :
    ((Account.iterExternal (n + 1) (Account.new key t net, db)).1.external_pk_list[n]?
      = some (((Account.iterExternal (n + 1) (Account.new key t net, db)).1.get_sk
          ⟨.External, n⟩).pub))
    ∧ ((Account.iterInternal (n + 1) (Account.new key t net, db)).1.internal_pk_list[n]?
      = some (((Account.iterInternal (n + 1) (Account.new key t net, db)).1.get_sk
          ⟨.Internal, n⟩).pub)) := by
  obtain ⟨hxk, -, hxl⟩ :=
    iterExternal_spec (n + 1) (Account.new key t net) db
  obtain ⟨hik, -, hil⟩ :=
    iterInternal_spec (n + 1) (Account.new key t net) db
  have hxk' : (Account.iterExternal (n + 1) (Account.new key t net, db)).1.account_key
      = key := hxk
  have hik' : (Account.iterInternal (n + 1) (Account.new key t net, db)).1.account_key
      = key := hik
  have hxl' : (Account.iterExternal (n + 1) (Account.new key t net, db)).1.external_pk_list
      = (List.range (n + 1)).map (fun j => (key.derive_priv [0, j]).toPublicKey) := by
    rw [hxl]; simp [Account.new]
  have hil' : (Account.iterInternal (n + 1) (Account.new key t net, db)).1.internal_pk_list
      = (List.range (n + 1)).map (fun j => (key.derive_priv [1, j]).toPublicKey) := by
    rw [hil]; simp [Account.new]
  constructor
  · rw [hxl']
    simp [Account.get_sk, hxk', AddressChain.toIndex, ExtendedPrivKey.derive_priv,
      ExtendedPrivKey.toPublicKey, ExtendedPrivKey.privateKey, PrivateKey.pub,
      List.getElem?_range, Nat.lt_succ_self]
  · rw [hil']
    simp [Account.get_sk, hik', AddressChain.toIndex, ExtendedPrivKey.derive_priv,
      ExtendedPrivKey.toPublicKey, ExtendedPrivKey.privateKey, PrivateKey.pub,
      List.getElem?_range, Nat.lt_succ_self]

/-! ## Lemmas about the wallet library -/

theorem lookupAll_eq_none_iff (w : WalletLibrary) (ops : List OutPoint) :
    WalletLibrary.lookupAll w ops = none
      ↔ ∃ op ∈ ops, WalletLibrary.findUtxo w op = none := by
  induction ops with
  | nil => simp [WalletLibrary.lookupAll]
  | cons op rest ih =>
    cases hf : WalletLibrary.findUtxo w op with
    | none => simp [WalletLibrary.lookupAll, hf]
    | some u =>
      cases hr : WalletLibrary.lookupAll w rest with
      | none => simp [WalletLibrary.lookupAll, hf, hr, ← ih]
      | some us => simp [WalletLibrary.lookupAll, hf, hr, ← ih]

theorem mem_get_utxo_list_not_locked (w : WalletLibrary) (u : Utxo)
    (h : u ∈ WalletLibrary.get_utxo_list w) :
    WalletLibrary.isLocked w u.out_point = false := by
  have h2 := List.of_mem_filter h
  simpa using h2

theorem isLocked_of_mem_group (w : WalletLibrary) (L : LockId) (S : LockGroup)
    (hg : (L, S) ∈ w.lock_groups) (op : OutPoint) (hop : op ∈ S) :
    WalletLibrary.isLocked w op = true := by
  simp only [WalletLibrary.isLocked, List.any_eq_true]
  exact ⟨(L, S), hg, op, hop, by simp⟩

theorem selectCoins_nil_pos (t : Nat) (h : t ≠ 0) :
    WalletLibrary.selectCoins [] t = none := by
  cases t with
  | zero => exact absurd rfl h
  | succ n => rfl

theorem selectCoins_subset (avail : List Utxo) (t : Nat) (chosen : List Utxo)
    (h : WalletLibrary.selectCoins avail t = some chosen) :
    ∀ u ∈ chosen, u ∈ avail := by
  induction avail generalizing t chosen with
  | nil =>
    cases t with
    | zero =>
      simp only [WalletLibrary.selectCoins, Option.some.injEq] at h
      subst h; intro u hu; cases hu
    | succ n => simp [WalletLibrary.selectCoins] at h
  | cons v rest ih =>
    cases t with
    | zero =>
      simp only [WalletLibrary.selectCoins, Option.some.injEq] at h
      subst h; intro u hu; cases hu
    | succ n =>
      simp only [WalletLibrary.selectCoins] at h
      by_cases hv : n + 1 ≤ v.value
      · rw [if_pos hv] at h
        injection h with h
        subst h
        intro u hu
        simp only [List.mem_singleton] at hu
        simp [hu]
      · rw [if_neg hv] at h
        cases hs : WalletLibrary.selectCoins rest (n + 1 - v.value) with
        | none => rw [hs] at h; simp at h
        | some l =>
          rw [hs] at h
          simp only [Option.map_some', Option.some.injEq] at h
          subst h
          intro u hu
          rcases List.mem_cons.mp hu with h1 | hu2
          · rw [h1]; exact List.mem_cons_self _ _
          · exact List.mem_cons_of_mem _ (ih (n + 1 - v.value) l hs u hu2)

theorem send_coins_lock_ok (w : WalletLibrary) (dest : Addr) (amt : Nat)
    (wo : Bool) (res : (Tx × LockId) × WalletLibrary)
    (h : WalletLibrary.send_coins w dest amt true wo = Except.ok res) :
    res.2.lock_groups = w.lock_groups ++ [(res.1.2, res.1.1.inputs)]
    ∧ res.1.2 = w.next_lock_id
    ∧ res.2.next_lock_id = w.next_lock_id + 1 := by
  simp only [WalletLibrary.send_coins] at h
  split at h
  · exact Except.noConfusion h
  · rename_i chosen heq
    rw [if_pos trivial] at h
    by_cases hc : amt + FIXED_FEE < (chosen.map Utxo.value).sum
    · simp only [if_pos hc, Except.ok.injEq] at h
      subst h
      exact ⟨rfl, rfl, rfl⟩
    · simp only [if_neg hc, Except.ok.injEq] at h
      subst h
      exact ⟨rfl, rfl, rfl⟩

theorem send_coins_nolock_ok (w : WalletLibrary) (dest : Addr) (amt : Nat)
    (wo : Bool) (res : (Tx × LockId) × WalletLibrary)
    (h : WalletLibrary.send_coins w dest amt false wo = Except.ok res) :
    res.2.lock_groups = w.lock_groups
    ∧ res.2.next_lock_id = w.next_lock_id := by
  simp only [WalletLibrary.send_coins] at h
  split at h
  · exact Except.noConfusion h
  · rename_i chosen heq
    rw [if_neg Bool.false_ne_true] at h
    by_cases hc : amt + FIXED_FEE < (chosen.map Utxo.value).sum
    · simp only [if_pos hc, Except.ok.injEq] at h
      subst h
      exact ⟨rfl, rfl⟩
    · simp only [if_neg hc, Except.ok.injEq] at h
      subst h
      exact ⟨rfl, rfl⟩

theorem send_coins_ok_inputs_unlocked (w : WalletLibrary) (dest : Addr)
    (amt : Nat) (lk wo : Bool) (res : (Tx × LockId) × WalletLibrary)
    (h : WalletLibrary.send_coins w dest amt lk wo = Except.ok res) :
    ∀ op ∈ res.1.1.inputs,
      ∃ u ∈ WalletLibrary.get_utxo_list w, u.out_point = op := by
  simp only [WalletLibrary.send_coins] at h
  split at h
  · exact Except.noConfusion h
  · rename_i chosen heq
    have hsub := selectCoins_subset _ _ _ heq
    have hinputs : res.1.1.inputs = chosen.map Utxo.out_point := by
      cases lk with
      | true =>
        rw [if_pos (rfl : (true : Bool) = true)] at h
        by_cases hc : amt + FIXED_FEE < (chosen.map Utxo.value).sum
        · simp only [if_pos hc, Except.ok.injEq] at h; subst h; rfl
        · simp only [if_neg hc, Except.ok.injEq] at h; subst h; rfl
      | false =>
        rw [if_neg Bool.false_ne_true] at h
        by_cases hc : amt + FIXED_FEE < (chosen.map Utxo.value).sum
        · simp only [if_pos hc, Except.ok.injEq] at h; subst h; rfl
        · simp only [if_neg hc, Except.ok.injEq] at h; subst h; rfl
    rw [hinputs]
    intro op hop
    obtain ⟨u, hu, rfl⟩ := List.mem_map.mp hop
    exact ⟨u, List.mem_of_mem_filter (hsub u hu), rfl⟩

theorem applyOp_preserves_entry (w : WalletLibrary) (o : WOp) (L : LockId)
    (S : LockGroup) (hwf : WalletLibrary.WF w) (hmem : (L, S) ∈ w.lock_groups)
    (hno : ¬ WOp.unlocks L o) :
    (L, S) ∈ (WalletLibrary.applyOp w o).lock_groups
    ∧ WalletLibrary.WF (WalletLibrary.applyOp w o) := by
  cases o with
  | send dest amt lk wo =>
    simp only [WalletLibrary.applyOp]
    cases hr : WalletLibrary.send_coins w dest amt lk wo with
    | error e => exact ⟨hmem, hwf⟩
    | ok res =>
      cases lk with
      | false =>
        obtain ⟨hg, hn⟩ := send_coins_nolock_ok w dest amt wo res hr
        refine ⟨?_, ?_⟩
        · show (L, S) ∈ res.2.lock_groups
          rw [hg]; exact hmem
        · intro p hp
          have hp2 : p ∈ res.2.lock_groups := hp
          rw [hg] at hp2
          show p.1 < res.2.next_lock_id
          rw [hn]
          exact hwf p hp2
      | true =>
        obtain ⟨hg, hL, hn⟩ := send_coins_lock_ok w dest amt wo res hr
        refine ⟨?_, ?_⟩
        · show (L, S) ∈ res.2.lock_groups
          rw [hg]; exact List.mem_append_left _ hmem
        · intro p hp
          have hp2 : p ∈ res.2.lock_groups := hp
          rw [hg] at hp2
          show p.1 < res.2.next_lock_id
          rw [hn]
          rcases List.mem_append.mp hp2 with hold | hnew
          · exact Nat.lt_succ_of_lt (hwf p hold)
          · simp only [List.mem_singleton] at hnew
            subst hnew
            simp [hL]
  | unlock lid =>
    have hne : ¬ (L = lid) := fun hEq => hno (by simp [WOp.unlocks, hEq])
    constructor
    · refine List.mem_filter.mpr ⟨hmem, ?_⟩
      simp [hne]
    · intro p hp
      exact hwf p (List.mem_of_mem_filter hp)
  | newAddress t => cases t <;> exact ⟨hmem, hwf⟩
  | newChange t => cases t <;> exact ⟨hmem, hwf⟩
  | grab t u => cases t <;> exact ⟨hmem, hwf⟩

theorem applyOps_preserves_entry (l : List WOp) (w : WalletLibrary)
    (L : LockId) (S : LockGroup) (hwf : WalletLibrary.WF w)
    (hmem : (L, S) ∈ w.lock_groups) (hall : ∀ o ∈ l, ¬ WOp.unlocks L o) :
    (L, S) ∈ (WalletLibrary.applyOps w l).lock_groups
    ∧ WalletLibrary.WF (WalletLibrary.applyOps w l) := by
  induction l generalizing w with
  | nil => exact ⟨hmem, hwf⟩
  | cons o rest ih =>
    have h1 := applyOp_preserves_entry w o L S hwf hmem (hall o (by simp))
    exact ih (WalletLibrary.applyOp w o) h1.2 h1.1
      (fun o2 h2 => hall o2 (List.mem_cons_of_mem o h2))

/-! ## Claims about the wallet library -/

/-- C6: `make_tx` fails with `UnknownOutpoint` exactly when some passed
outpoint is in none of the wallet's UTXO maps; when all are present and
their values sum below `amount + 10000` it fails with
`InsufficientFunds`; otherwise it returns a transaction spending exactly
the passed outpoints whose outputs are `(destination, amount)` plus,
exactly when the input sum exceeds `amount + 10000`, one change output
of value `sum - amount - 10000` at the freshly issued internal address
of the P2WKH account (the next internal key of that account). -/
theorem c6_make_tx_contract (w : WalletLibrary) (ops : List OutPoint)
    (dest : Addr) (amt : Nat) :
    (WalletLibrary.make_tx w ops dest amt = Except.error WalletErr.UnknownOutpoint
      ↔ ∃ op ∈ ops, WalletLibrary.findUtxo w op = none)
    ∧ (∀ us, WalletLibrary.lookupAll w ops = some us →
        (WalletLibrary.make_tx w ops dest amt = Except.error WalletErr.InsufficientFunds
          ↔ (us.map Utxo.value).sum < amt + FIXED_FEE))
    ∧ (∀ us, WalletLibrary.lookupAll w ops = some us →
        ∀ tx w2, WalletLibrary.make_tx w ops dest amt = Except.ok (tx, w2) →
          tx.inputs = ops
          ∧ (amt + FIXED_FEE < (us.map Utxo.value).sum →
              tx.outputs
                = [(dest, amt),
                   ((WalletLibrary.issueChangeAddress w).1,
                    (us.map Utxo.value).sum - (amt + FIXED_FEE))])
          ∧ (¬ amt + FIXED_FEE < (us.map Utxo.value).sum →
              tx.outputs = [(dest, amt)]))
    ∧ (WalletLibrary.issueChangeAddress w).1
        = ⟨w.p2wkh.network, w.p2wkh.address_type,
           (w.p2wkh.account_key.derive_priv [1, w.p2wkh.internal_index]).toPublicKey⟩ := by
  refine ⟨?_, ?_, ?_, ?_⟩
  · cases hl : WalletLibrary.lookupAll w ops with
    | none =>
      have hres : WalletLibrary.make_tx w ops dest amt
          = Except.error WalletErr.UnknownOutpoint := by
        simp [WalletLibrary.make_tx, hl]
      exact iff_of_true hres ((lookupAll_eq_none_iff w ops).mp hl)
    | some us =>
      have hne : WalletLibrary.make_tx w ops dest amt
          ≠ Except.error WalletErr.UnknownOutpoint := by
        simp only [WalletLibrary.make_tx, hl]
        by_cases hc1 : (us.map Utxo.value).sum < amt + FIXED_FEE
        · simp [hc1]
        · by_cases hc2 : amt + FIXED_FEE < (us.map Utxo.value).sum
          · simp [hc1, hc2]
          · simp [hc1, hc2]
      have hnex : ¬ ∃ op ∈ ops, WalletLibrary.findUtxo w op = none := by
        rw [← lookupAll_eq_none_iff]
        simp [hl]
      exact iff_of_false hne hnex
  · intro us hl
    simp only [WalletLibrary.make_tx, hl]
    by_cases hc1 : (us.map Utxo.value).sum < amt + FIXED_FEE
    · simp [hc1]
    · by_cases hc2 : amt + FIXED_FEE < (us.map Utxo.value).sum
      · simp [hc1, hc2]
      · simp [hc1, hc2]
  · intro us hl tx w2 hmk
    simp only [WalletLibrary.make_tx, hl] at hmk
    by_cases hc1 : (us.map Utxo.value).sum < amt + FIXED_FEE
    · rw [if_pos hc1] at hmk
      exact Except.noConfusion hmk
    · rw [if_neg hc1] at hmk
      by_cases hc2 : amt + FIXED_FEE < (us.map Utxo.value).sum
      · rw [if_pos hc2] at hmk
        simp only [Except.ok.injEq, Prod.mk.injEq] at hmk
        obtain ⟨htx, -⟩ := hmk
        subst htx
        exact ⟨rfl, fun _ => rfl, fun hcon => absurd hc2 hcon⟩
      · rw [if_neg hc2] at hmk
        simp only [Except.ok.injEq, Prod.mk.injEq] at hmk
        obtain ⟨htx, -⟩ := hmk
        subst htx
        exact ⟨rfl, fun hcon => absurd hcon hc2, fun _ => rfl⟩
  · simp [WalletLibrary.issueChangeAddress, Account.new_change_address,
      Account.next_internal_pk, Account.addr_from_pk]

/-- C6, witness: on the concrete one-coin wallet, an unknown outpoint
yields `UnknownOutpoint`, and spending the whole 1 BTC coin (leaving
nothing for the fee) yields `InsufficientFunds`. -/
theorem c6_make_tx_witness :
    WalletLibrary.make_tx cWallet [⟨9, 9⟩] cDest 1
        = Except.error WalletErr.UnknownOutpoint
    ∧ WalletLibrary.make_tx cWallet [cOut] cDest 100000000
        = Except.error WalletErr.InsufficientFunds := by
  constructor
  · exact (c6_make_tx_contract cWallet [⟨9, 9⟩] cDest 1).1.mpr
      ⟨⟨9, 9⟩, by decide, by decide⟩
  · exact ((c6_make_tx_contract cWallet [cOut] cDest 100000000).2.1 [cUtxo]
      (by decide)).mpr (by decide)

/-- C7: `wallet_balance` equals the sum of the values of the Utxos
returned by `get_utxo_list`, and `get_utxo_list` contains no Utxo whose
outpoint belongs to an active lock group — coins under an active lock
never count toward the spendable balance. -/
theorem c7_wallet_balance_unlocked (w : WalletLibrary) :
    WalletLibrary.wallet_balance w
      = ((WalletLibrary.get_utxo_list w).map Utxo.value).sum
    ∧ ∀ u ∈ WalletLibrary.get_utxo_list w,
        WalletLibrary.isLocked w u.out_point = false :=
  ⟨rfl, fun u hu => mem_get_utxo_list_not_locked w u hu⟩

/-- C7, witness: on the concrete one-coin wallet, the balance is the
sum over the unlocked UTXO list and the listed coin is unlocked. -/
theorem c7_wallet_balance_unlocked_witness :
    WalletLibrary.wallet_balance cWallet
      = ((WalletLibrary.get_utxo_list cWallet).map Utxo.value).sum
    ∧ WalletLibrary.isLocked cWallet cUtxo.out_point = false :=
  ⟨(c7_wallet_balance_unlocked cWallet).1,
   (c7_wallet_balance_unlocked cWallet).2 cUtxo (by decide)⟩

/-- C8: when a locking `send_coins` succeeds with lock id `L` over the
chosen outpoints, then after any sequence of wallet operations none of
which is `unlock_coins L`, a subsequent successful `send_coins` selects
none of those outpoints; and when every coin is reserved (the unlocked
UTXO list is empty), a further `send_coins` fails with
`InsufficientFunds`. -/
theorem c8_lock_exclusion (w : WalletLibrary) (dest : Addr) (amt : Nat)
    (wo : Bool) (tx : Tx) (L : LockId) (w1 : WalletLibrary)
    (hwf : WalletLibrary.WF w)
    (hsend : WalletLibrary.send_coins w dest amt true wo = Except.ok ((tx, L), w1))
    (seq : List WOp) (hseq : ∀ o ∈ seq, ¬ WOp.unlocks L o) :
    (∀ dest2 amt2 lk2 wo2 tx2 L2 w3,
        WalletLibrary.send_coins (WalletLibrary.applyOps w1 seq) dest2 amt2 lk2 wo2
          = Except.ok ((tx2, L2), w3) →
        ∀ op ∈ tx2.inputs, op ∉ tx.inputs)
    ∧ (WalletLibrary.get_utxo_list (WalletLibrary.applyOps w1 seq) = [] →
        ∀ dest2 amt2 lk2 wo2,
          WalletLibrary.send_coins (WalletLibrary.applyOps w1 seq) dest2 amt2 lk2 wo2
            = Except.error WalletErr.InsufficientFunds) := by
  obtain ⟨hg, hL, hn⟩ := send_coins_lock_ok w dest amt wo ((tx, L), w1) hsend
  have hg2 : w1.lock_groups = w.lock_groups ++ [(L, tx.inputs)] := hg
  have hL2 : L = w.next_lock_id := hL
  have hn2 : w1.next_lock_id = w.next_lock_id + 1 := hn
  have hwf1 : WalletLibrary.WF w1 := by
    intro p hp
    rw [hg2] at hp
    rw [hn2]
    rcases List.mem_append.mp hp with hold | hnew
    · exact Nat.lt_succ_of_lt (hwf p hold)
    · simp only [List.mem_singleton] at hnew
      subst hnew
      simp [hL2]
  have hmem1 : (L, tx.inputs) ∈ w1.lock_groups := by
    rw [hg2]
    exact List.mem_append_right _ (by simp)
  obtain ⟨hmem2, hwf2⟩ :=
    applyOps_preserves_entry seq w1 L tx.inputs hwf1 hmem1 hseq
  constructor
  · intro dest2 amt2 lk2 wo2 tx2 L2 w3 hs2 op hop hcontra
    obtain ⟨u, hu, hue⟩ := send_coins_ok_inputs_unlocked
      (WalletLibrary.applyOps w1 seq) dest2 amt2 lk2 wo2 ((tx2, L2), w3) hs2 op hop
    have hnl := mem_get_utxo_list_not_locked (WalletLibrary.applyOps w1 seq) u hu
    have hl := isLocked_of_mem_group (WalletLibrary.applyOps w1 seq)
      L tx.inputs hmem2 op hcontra
    rw [hue] at hnl
    rw [hnl] at hl
    exact Bool.noConfusion hl
  · intro hempty dest2 amt2 lk2 wo2
    have hsel : WalletLibrary.selectCoins
        ((WalletLibrary.get_utxo_list (WalletLibrary.applyOps w1 seq)).filter
          (fun u => !wo2 || decide (u.addr_type = AccountAddressType.P2WKH)))
        (amt2 + FIXED_FEE) = none := by
      rw [hempty, List.filter_nil]
      exact selectCoins_nil_pos _ (by simp [FIXED_FEE])
    simp only [WalletLibrary.send_coins, hsel]

/-- C8, witness: on the concrete one-coin wallet, after a successful
locking `send_coins` (returning lock id 1 over the single coin) and no
intervening operations, a further `send_coins` fails with
`InsufficientFunds` — every coin is reserved. -/
theorem c8_lock_exclusion_witness :
    WalletLibrary.send_coins cW1 cDest 1 false false
      = Except.error WalletErr.InsufficientFunds :=
  (c8_lock_exclusion cWallet cDest 50000000 false cTx 1 cW1
      (fun p hp => absurd hp (List.not_mem_nil p)) rfl []
      (fun o ho => absurd ho (List.not_mem_nil o))).2
    (by decide) cDest 1 false false

/-! ## Lemmas about the key-derivation stack -/

theorem toBytesBE_length (c x : Nat) : (toBytesBE c x).length = c := by
  simp [toBytesBE]

theorem sha512_length (msg : List Nat) : (sha512 msg).length = 64 := by
  simp [sha512, toBytesBE_length]

theorem hmacSha512_length (key msg : List Nat) :
    (hmacSha512 key msg).length = 64 := by
  simp only [hmacSha512]
  exact sha512_length _

theorem xorBytes_length (a b : List Nat) :
    (xorBytes a b).length = min a.length b.length := by
  simp [xorBytes]

theorem pbkdf2Iter_length (key : List Nat) (n : Nat) (u acc : List Nat)
    (h : acc.length = 64) : (pbkdf2Iter key n u acc).length = 64 := by
  induction n generalizing u acc with
  | zero => simpa [pbkdf2Iter] using h
  | succ n ih =>
    simp only [pbkdf2Iter]
    exact ih _ _ (by rw [xorBytes_length, h, hmacSha512_length]; exact Nat.min_self 64)

theorem pbkdf2Block_length (key salt : List Nat) (c i : Nat) :
    (pbkdf2Block key salt c i).length = 64 := by
  simp only [pbkdf2Block]
  exact pbkdf2Iter_length _ _ _ _ (hmacSha512_length _ _)

/-! ## Claims about seed derivation and the key factory -/

/-- C4: for every mnemonic and salt, `Seed::new` returns exactly the
64-byte output of PBKDF2-HMAC-SHA512 keyed with the bytes of the
space-joined mnemonic words, over the salt bytes `"mnemonic" + salt`,
with 2048 iterations — and that output indeed has 64 bytes. -/
theorem c4_seed_is_pbkdf2 (m : Mnemonic) (salt : List Nat) :
    (Seed.new m salt).bytes
      = pbkdf2HmacSha512_64 (List.intercalate [32] (m.words.map bip39WordBytes))
          (mnemonicSaltBytes ++ salt) 2048
    ∧ (Seed.new m salt).bytes.length = 64 := by
  have hb : (Seed.new m salt).bytes
      = pbkdf2Block (Mnemonic.toBytes m) (mnemonicSaltBytes ++ salt) 2048 1 := by
    simp only [Seed.new, cryptoPbkdf2]
    have h1 : List.range 1 = [0] := rfl
    rw [h1]
    simp only [List.map_cons, List.map_nil, List.flatten_cons, List.flatten_nil,
      List.append_nil, Nat.zero_add]
    exact List.take_of_length_le (le_of_eq (pbkdf2Block_length _ _ _ _))
  exact ⟨hb, by rw [hb, pbkdf2Block_length]⟩

/-- C5: whenever `new_master_private_key` returns `Ok((key, mnemonic,
entropy))`, decrypting the stored entropy with the same network,
passphrase and salt returns `Ok((key, mnemonic))` — `decrypt` rebuilds
exactly the master key and mnemonic produced at creation. -/
theorem c5_create_decrypt_roundtrip (entropy : MasterKeyEntropy)
    (network : Network) (passphrase salt : List Nat) (debug : Bool)
    (osRng : Option (List Nat)) :
    match KeyFactory.new_master_private_key entropy network passphrase salt
        debug osRng with
    | .ok r => KeyFactory.decrypt r.2.2 network passphrase salt = .ok (r.1, r.2.1)
    | .error _ => True := by
  cases osRng with
  | none => simp [KeyFactory.new_master_private_key]
  | some randomBytes =>
    simp only [KeyFactory.new_master_private_key]
    cases hm : Mnemonic.new
        (if debug then List.replicate entropy.size 0
         else (randomBytes ++ List.replicate entropy.size 0).take entropy.size)
        passphrase with
    | error e => simp [hm]
    | ok mn =>
      simp [hm, KeyFactory.master_private_key, KeyFactory.decrypt]

end RustWallet
